import Mathlib

/-!
Verification development for the `shuvam27/web` repository.

The development shallowly embeds the two source files:

* `src/dadi/lib/providers/markdown.js` — the Markdown datasource provider
  (`initialise`, `processSortParameter`, `load`, `readFileAsync`,
  `parseRawDataAsync`);
* `src/dadi/lib/view/index.js` — the `View.render` method and its
  post-processor chain.

External collaborators (js-yaml's `safeLoad`, `marked`, JS `Date` parsing and
the file system) are taken as function parameters of the embedded operations;
the pagination-metadata helper and the `selectFields` underscore mixin, which
are not part of this repository, are modelled from the specification and
marked as such.  Machine-level JS behaviours that the claims depend on — the
`null` regex-match dereference, the stateful `g`-flag regex used with
`.test`, and the truthiness of an empty array in `metadata || null` — are
embedded explicitly.
-/

/-! ## Basic JS-level values -/

/-- Errors that the embedded code can raise.  `typeError` stands for the
TypeError thrown when a property of `null` is dereferenced, `yamlError` for a
parse failure of js-yaml's `safeLoad`, `ioError` for a file-system failure. -/
inductive ErrVal
  | typeError (msg : String)
  | yamlError (msg : String)
  | ioError (msg : String)
deriving DecidableEq

/-- The TypeError raised by `bits[1]` in `parseRawDataAsync` when
`yamlRegex.exec` returned `null`. -/
def nullDeref : ErrVal := .typeError "Cannot read property of null"

/-- YAML front-matter attributes.  js-yaml returns an arbitrary value; the
provider only ever reads scalar-valued keys of the mapping, so attributes are
modelled as an association list of string keys to scalar (string) values. -/
def Attrs := List (String × String)

instance : DecidableEq Attrs := by
  unfold Attrs
  infer_instance

/-- Result of `fs.readFile` as packaged by `readFileAsync`: the object
`{_name: filename, _contents: data}`. -/
structure RawFile where
  _name : String
  _contents : String
deriving DecidableEq

/-- The `meta` object built for each post in `parseRawDataAsync`. -/
structure MetaInfo where
  location : String
  extension : String
  handle : String
deriving DecidableEq

/-- One parsed record, matching the object pushed onto `posts` in
`parseRawDataAsync`. -/
structure Post where
  meta : MetaInfo
  attributes : Attrs
  original : String
  contentText : String
  contentHtml : String
deriving DecidableEq

/-! ## Model of the front-matter regex

`parseRawDataAsync` uses the regex
`---[\n\r]+([\s\S]*)[\n\r]+---[\n\r]+([\s\S]*)` (no flags).  The model
implements JS `exec` semantics for this pattern: leftmost match wins; the
quantifiers are greedy, so group 1 extends to the last possible separator and
the newline runs around the delimiters are maximal; group 2 is the rest of
the input.  `exec` returns `none` exactly when the pattern does not occur. -/

/-- Is a character matched by the `[\n\r]` class of the regex? -/
def isNl (c : Char) : Bool := c == '\n' || c == '\r'

/-- Length of the maximal leading run of `[\n\r]` characters. -/
def nlCount : List Char → Nat
  | [] => 0
  | c :: cs => if isNl c then nlCount cs + 1 else 0

/-- Does the text start with the literal `---` of the pattern? -/
def startsWithDashes : List Char → Bool
  | '-' :: '-' :: '-' :: _ => true
  | _ => false

/-- Try to match `[\n\r]+---[\n\r]+([\s\S]*)` at exactly this position,
returning group 2.  The newline run before `---` must be the whole leading
run (a `-` is not a newline, so no other split can match), and the run after
`---` is taken greedily, after which the greedy group 2 is the remainder. -/
def sepAt (cs : List Char) : Option (List Char) :=
  let m := nlCount cs
  if m = 0 then none
  else
    let rest := cs.drop m
    if startsWithDashes rest then
      let rest2 := rest.drop 3
      let j := nlCount rest2
      if j = 0 then none else some (rest2.drop j)
    else none

/-- Greedy search for the split between group 1 and the middle separator:
try the longest group 1 first (`a` down to `0`), returning
`(group 1, group 2)` for the first split whose remainder matches. -/
def findSplit (cs : List Char) : Nat → Option (List Char × List Char)
  | 0 =>
    match sepAt cs with
    | some g2 => some ([], g2)
    | none => none
  | Nat.succ a =>
    match sepAt (cs.drop (a + 1)) with
    | some g2 => some (cs.take (a + 1), g2)
    | none => findSplit cs a

/-- Backtracking over the first `[\n\r]+` of the pattern: the run after the
opening `---` is taken greedily (`i` newlines, from the maximal run down to
one); what it gives back becomes part of group 1. -/
def tryNl (cs1 : List Char) : Nat → Option (List Char × List Char)
  | 0 => none
  | Nat.succ k =>
    let cs2 := cs1.drop (k + 1)
    match findSplit cs2 cs2.length with
    | some r => some r
    | none => tryNl cs1 k

/-- Try to match the whole pattern at the start of `cs`. -/
def matchAt (cs : List Char) : Option (List Char × List Char) :=
  if startsWithDashes cs then
    let cs1 := cs.drop 3
    tryNl cs1 (nlCount cs1)
  else none

/-- Leftmost-match search of `exec`: try each start position left to
right. -/
def execAux : List Char → Option (List Char × List Char)
  | [] => none
  | c :: cs =>
    match matchAt (c :: cs) with
    | some r => some r
    | none => execAux cs

/-- Model of `yamlRegex.exec(text)`: `none` is JS `null`, otherwise the two
capture groups. -/
def yamlRegexExec (s : String) : Option (String × String) :=
  match execAux s.toList with
  | none => none
  | some (g1, g2) => some (String.mk g1, String.mk g2)

/-- Does the text contain the literal `---` anywhere? -/
def hasTripleDash : List Char → Bool
  | [] => false
  | c :: cs => startsWithDashes (c :: cs) || hasTripleDash cs

/-! ## parseRawDataAsync -/

/-- Model of Node's `path.parse` result, restricted to the two fields the
provider reads (`name` and `ext`). -/
structure PathParts where
  name : String
  ext : String
deriving DecidableEq

/-- The part of the path after the last `/`. -/
def baseNameChars (cs : List Char) : List Char :=
  ((cs.reverse.takeWhile (fun c => !(c == '/')))).reverse

/-- Model of `path.parse`: `ext` is the suffix from the last dot of the base
name (empty when there is no dot or the dot is the leading character, as for
dotfiles); `name` is the base name without that suffix. -/
def pathParse (p : String) : PathParts :=
  let b := baseNameChars p.toList
  let pre := b.reverse.takeWhile (fun c => !(c == '.'))
  if pre.length = b.length then ⟨String.mk b, ""⟩
  else
    let extLen := pre.length + 1
    if extLen = b.length then ⟨String.mk b, ""⟩
    else ⟨String.mk (b.take (b.length - extLen)), String.mk (b.drop (b.length - extLen))⟩

/-- One iteration of the loop body of `parseRawDataAsync`.  A `none` from
`exec` makes `bits[1]` throw (`nullDeref`); a failure of `yaml.safeLoad`
propagates.  `yamlL` models `yaml.safeLoad`, `markedF` models `marked`. -/
def parseOne (yamlL : String → Except ErrVal Attrs) (markedF : String → String)
    (f : RawFile) : Except ErrVal Post :=
  match yamlRegexExec f._contents with
  | none => .error nullDeref
  | some (g1, g2) =>
    match yamlL g1 with
    | .error e => .error e
    | .ok attributes =>
      let contentText := g2
      let contentHtml := markedF contentText
      let parsedPath := pathParse f._name
      .ok { meta := ⟨f._name, parsedPath.ext, parsedPath.name⟩
            attributes := attributes
            original := f._contents
            contentText := contentText
            contentHtml := contentHtml }

/-- Run an effectful step over a list, stopping at the first error — the
behaviour of the sequential `for` loop (and of `async.map`'s error
channel). -/
def mapExceptList (f : α → Except ErrVal β) : List α → Except ErrVal (List β)
  | [] => .ok []
  | x :: xs =>
    match f x with
    | .error e => .error e
    | .ok y =>
      match mapExceptList f xs with
      | .error e => .error e
      | .ok ys => .ok (y :: ys)

/-- Model of `parseRawDataAsync`: parse each raw file in order; the first
exception aborts the whole batch. -/
def parseRawDataAsync (yamlL : String → Except ErrVal Attrs)
    (markedF : String → String) (data : List RawFile) :
    Except ErrVal (List Post) :=
  mapExceptList (parseOne yamlL markedF) data

/-! ## Model of the sort comparison

`load` sorts with underscore's `_.sortBy`, whose comparison key here is
`+(new Date(value))` when the attribute value parses as a date and the raw
value otherwise (`undefined` when the attribute is absent).  Underscore's
comparator orders two keys with JS `<`/`>` (numbers numerically, strings
lexicographically by code unit, `undefined` last, a number and a string
mutually incomparable) and falls back to the original index, which makes the
sort stable.  The model is a stable insertion sort over that comparator;
where the comparator is inconsistent (mixed number/string keys) ECMAScript
leaves the order implementation-defined and the model fixes the stable
choice.  JS `Date` parsing is external and is a parameter `pd` (`none` for an
Invalid Date). -/

/-- A `_.sortBy` comparison key: a timestamp number, a raw string, or JS
`undefined`. -/
inductive JsKey
  | num (t : Int)
  | str (s : String)
  | undef
deriving DecidableEq

/-- JS `===` on comparison keys. -/
def jsEq : JsKey → JsKey → Bool
  | .num a, .num b => a == b
  | .str a, .str b => a == b
  | .undef, .undef => true
  | _, _ => false

/-- JS `<` on comparison keys: numeric on numbers, code-unit lexicographic on
strings, `false` on any mixed or `undefined` comparison (those coerce to
`NaN`). -/
def rawLt : JsKey → JsKey → Bool
  | .num a, .num b => decide (a < b)
  | .str a, .str b => decide (a < b)
  | _, _ => false

/-- Is the key JS `undefined`? -/
def isUndef : JsKey → Bool
  | .undef => true
  | _ => false

/-- Does underscore's comparator order key `a` strictly before key `b`?
Mirrors: if the keys differ, `a > b` or `a` undefined sorts `a` after,
`a < b` or `b` undefined sorts `a` before; otherwise the original index
decides (not a strict ordering, hence `false` here). -/
def keyLt (a b : JsKey) : Bool :=
  if jsEq a b then false
  else if rawLt b a || isUndef a then false
  else if rawLt a b || isUndef b then true
  else false

/-- Insert into a sorted list, stopping before the first element that `a`
may precede (`le`): the stable insertion of `_.sortBy`. -/
def orderedInsertLe (le : α → α → Bool) (a : α) : List α → List α
  | [] => [a]
  | b :: l => if le a b then a :: b :: l else b :: orderedInsertLe le a l

/-- Stable insertion sort: the model of the engine's stable `Array.sort`
under underscore's comparator. -/
def insertionSortLe (le : α → α → Bool) : List α → List α
  | [] => []
  | b :: l => orderedInsertLe le b (insertionSortLe le l)

/-- The comparison key of a post for a sort field: `attributes[field]` run
through `new Date` (parameter `pd`), the timestamp if valid, the raw value
otherwise, `undefined` when the attribute is absent. -/
def sortKey (pd : String → Option Int) (field : String) (p : Post) : JsKey :=
  match p.attributes.lookup field with
  | none => .undef
  | some v =>
    match pd v with
    | some t => .num t
    | none => .str v

/-- Model of `_.sortBy(posts, post => key)`: stable sort, `a` before `b`
unless the comparator puts `b` strictly first. -/
def sortByField (pd : String → Option Int) (field : String) (posts : List Post) :
    List Post :=
  insertionSortLe
    (fun a b => !(keyLt (sortKey pd field b) (sortKey pd field a))) posts

/-- One iteration of the sort loop in `load`: sort ascending by the field,
then reverse the whole sequence when the direction is `-1`. -/
def applySortDir (pd : String → Option Int) (field : String) (dir : Int)
    (posts : List Post) : List Post :=
  let s := sortByField pd field posts
  if dir = -1 then s.reverse else s

/-- The whole sort stage of `load`: apply each declared sort field in order
(`Object.keys(sort).forEach`); an empty sort spec leaves the list as is,
exactly as the surrounding `if` does. -/
def sortStep (pd : String → Option Int) (sort : List (String × Int))
    (posts : List Post) : List Post :=
  sort.foldl (fun ps fd => applySortDir pd fd.1 fd.2 ps) posts

/-- Model of `processSortParameter`: keep only the fields whose direction is
`-1` or `1`; a missing (non-object) sort spec becomes the empty spec. -/
def processSortParameter (obj : Option (List (String × Int))) :
    List (String × Int) :=
  match obj with
  | none => []
  | some l => l.filter (fun p => p.2 = -1 || p.2 = 1)

/-! ## Model of the extension filter

`load` builds `new RegExp('.' + this.extension + '$', 'g')` and filters the
directory listing with `extFilter.test(i)`.  Because of the `g` flag the
regex object is stateful: a successful `test` leaves `lastIndex` at the end
of the match and the next `test` only searches from there, resetting
`lastIndex` to `0` on failure.  The pattern anchors at the end of the string
and its only candidate match starts at `length - extension.length - 1`, with
the leading `.` matching any character that is not a line terminator. -/

/-- Does the JS `.` (dot, no `s` flag) match this character? -/
def jsDotChar (c : Char) : Bool :=
  !(c == '\n' || c == '\r' || c == Char.ofNat 0x2028 || c == Char.ofNat 0x2029)

/-- One `extFilter.test(name)` call: given the regex's current `lastIndex`,
return the test result and the updated `lastIndex`. -/
def testExtRegexG (ext : String) (name : String) (lastIndex : Nat) :
    Bool × Nat :=
  let cs := name.toList
  let el := ext.toList
  if cs.length < el.length + 1 then (false, 0)
  else
    let p := cs.length - el.length - 1
    match cs[p]? with
    | none => (false, 0)
    | some c =>
      if decide (lastIndex ≤ p) && jsDotChar c && (cs.drop (p + 1) == el)
      then (true, cs.length)
      else (false, 0)

/-- The `filter` traversal over the directory listing, threading the shared
regex state through the successive `test` calls. -/
def filterNames (ext : String) : List String → Nat → List String
  | [], _ => []
  | n :: ns, li =>
    let r := testExtRegexG ext n li
    if r.1 then n :: filterNames ext ns r.2 else filterNames ext ns r.2

/-- The filename selection of `load`: a fresh regex (`lastIndex = 0`) is
created per call and then shared by every `test` of the filter. -/
def selectFilenames (ext : String) (names : List String) : List String :=
  filterNames ext names 0

/-- The extension test as the claim reads it: a fresh, stateless match of the
same pattern against the single filename. -/
def matchesExtStateless (ext : String) (name : String) : Bool :=
  (testExtRegexG ext name 0).1

/-! ## Schema and the filter/sort/paginate pipeline -/

/-- The datasource settings that `load` reads from `this.schema.datasource`
(with `extension` already defaulted to `md` by `initialise`, and
`sourcePath` the normalized `source.path`).  `none` models a JS `undefined`
setting.  Search and filter predicate-objects map keys to the scalar values
they must equal; `page` and `count` are the non-negative integers of the
pagination contract. -/
structure Schema where
  sourcePath : String
  extension : String
  sort : Option (List (String × Int))
  search : Option (List (String × String))
  filter : Option (List (String × String))
  count : Option Nat
  fields : Option (List String)
  page : Option Nat
deriving DecidableEq

/-- The scalar-valued top-level properties of a post: `_.where(posts,
search)` compares each predicate key with `===`, and the object-valued
properties (`meta`, `attributes`) can never equal a scalar from the query
spec. -/
def topLevelValue (p : Post) (k : String) : Option String :=
  if k == "original" then some p.original
  else if k == "contentText" then some p.contentText
  else if k == "contentHtml" then some p.contentHtml
  else none

/-- Underscore `_.isMatch` over the top-level properties of a post: every
key of the predicate-object must match. -/
def isMatchTop (pred : List (String × String)) (p : Post) : Bool :=
  pred.all (fun kv => topLevelValue p kv.1 == some kv.2)

/-- Underscore `_.isMatch` over an attributes mapping. -/
def isMatchAttrs (pred : List (String × String)) (attrs : Attrs) : Bool :=
  pred.all (fun kv => attrs.lookup kv.1 == some kv.2)

/-- The search stage: `if (search) posts = _.where(posts, search)`. -/
def applySearch (search : Option (List (String × String))) (posts : List Post) :
    List Post :=
  match search with
  | none => posts
  | some s => posts.filter (isMatchTop s)

/-- The filter stage: keep the posts whose `attributes` match the filter
predicate-object (`_.where([post.attributes], filter).length > 0`). -/
def applyFilter (filter : Option (List (String × String))) (posts : List Post) :
    List Post :=
  match filter with
  | none => posts
  | some f => posts.filter (fun p => isMatchAttrs f p.attributes)

/-- The search stage followed by the filter stage, the sequence whose length
is captured as `postCount`. -/
def stage12 (schema : Schema) (posts : List Post) : List Post :=
  applyFilter schema.filter (applySearch schema.search posts)

/-- JS `Array.prototype.slice(start, stop)` for the non-negative indices
produced by the pagination arithmetic. -/
def jsSlice (l : List α) (start stop : Nat) : List α :=
  (l.take stop).drop start

/-- Modelled from the spec: the shape of the `@dadi/metadata` collaborator's
result, which is not part of this repository; §4.4 of the spec requires at
least `page`, `limit`, `totalCount` and `totalPages = ceil(totalCount /
limit)`. -/
structure PaginationMetadata where
  page : Nat
  limit : Nat
  totalCount : Nat
  totalPages : Nat
deriving DecidableEq

/-- Modelled from the spec: the `meta(options, totalCount)` call of the
`@dadi/metadata` collaborator, built from `{page: page, limit: count}` and
the pre-slice `postCount`. -/
def metaBuild (page limit totalCount : Nat) : PaginationMetadata :=
  ⟨page, limit, totalCount, (totalCount + limit - 1) / limit⟩

/-- The value held by the `metadata` local of `load`: its initialisation
`[]` (an empty array) or the object built by the metadata helper. -/
inductive MetaVal
  | arrEmpty
  | built (m : PaginationMetadata)
deriving DecidableEq

/-- JS truthiness of the `metadata` local: an empty array and an object are
both truthy. -/
def metaTruthy : MetaVal → Bool
  | .arrEmpty => true
  | .built _ => true

/-- The `metadata || null` of the result envelope: `none` models JS
`null`. -/
def metaOrNull (v : MetaVal) : Option MetaVal :=
  if metaTruthy v then some v else none

/-- A record of the result envelope: a full post, or the projected object
when a field list was supplied. -/
inductive ResultRec
  | full (p : Post)
  | projected (flds : List (String × String))
deriving DecidableEq

/-- Value of a dotted field path on a post, used by the projection model:
`attributes.`-prefixed paths read the attributes mapping, other names read
the scalar top-level properties. -/
def fieldValue (p : Post) (f : String) : Option String :=
  match f.splitOn "." with
  | ["attributes", k] => p.attributes.lookup k
  | [k] => topLevelValue p k
  | _ => none

/-- Modelled from the spec: the `selectFields` underscore mixin invoked by
`_.chain(posts).selectFields(fields.join(','))` is not part of this
repository; §4.3 step 6 of the spec replaces each record with an object
containing only the requested (possibly dotted) fields. -/
def selectFieldsPost (fields : List String) (p : Post) : ResultRec :=
  .projected (fields.filterMap (fun f => (fieldValue p f).map (fun v => (f, v))))

/-- The result envelope `{results, metadata}` passed to `done`. -/
structure Envelope where
  results : List ResultRec
  metadata : Option MetaVal
deriving DecidableEq

/-- The `page` local of `load`: `this.schema.datasource.page || 1` (both an
absent and a zero page fall back to `1`). -/
def effPage (schema : Schema) : Nat :=
  match schema.page with
  | none => 1
  | some 0 => 1
  | some p => p

/-- The body of the `parseRawDataAsync` callback in `load`: search → filter
→ sort → paginate (+ metadata) → project, assembling the result envelope.
`page && count` is truthy exactly when `count` is present and non-zero,
since `page` has already been defaulted to at least `1`; `metadata` starts
as the empty array `[]` and is replaced by the helper's object only when
pagination triggers; the envelope carries `metadata || null`. -/
def pipeline (pd : String → Option Int) (schema : Schema) (posts0 : List Post) :
    Envelope :=
  let sort := processSortParameter schema.sort
  let fields := schema.fields.getD []
  let page := effPage schema
  let posts2 := stage12 schema posts0
  let postCount := posts2.length
  let posts3 := sortStep pd sort posts2
  let paginated : List Post × MetaVal :=
    match schema.count with
    | some c =>
      if c = 0 then (posts3, .arrEmpty)
      else
        let offset := (page - 1) * c
        (jsSlice posts3 offset (offset + c), .built (metaBuild page c postCount))
    | none => (posts3, .arrEmpty)
  let results :=
    if fields = [] then paginated.1.map ResultRec.full
    else paginated.1.map (selectFieldsPost fields)
  { results := results, metadata := metaOrNull paginated.2 }

/-! ## load -/

/-- The outcome of a `load` call, as seen by its caller: `done(null, env)`,
`done(err, null)`, or — when an exception is thrown inside the `async.map`
completion callback after the surrounding `try`/`catch` has already
returned — an uncaught exception with `done` never invoked. -/
inductive LoadOutcome
  | ok (env : Envelope)
  | errCb (e : ErrVal)
  | uncaught (e : ErrVal)
deriving DecidableEq

/-- `path.join(sourcePath, name)` for the already-normalized directory
path. -/
def pathJoin (sourcePath name : String) : String :=
  sourcePath ++ "/" ++ name

/-- The file paths `load` reads: the directory listing filtered by the
shared extension regex, each joined with the source path. -/
def loadPaths (schema : Schema) (names : List String) : List String :=
  (selectFilenames schema.extension names).map (pathJoin schema.sourcePath)

/-- The raw-file objects produced by the `async.map` over `readFileAsync`:
`{_name: filepath, _contents: data}` in listing order. -/
def mkRaws (paths : List String) (datas : List String) : List RawFile :=
  (paths.zip datas).map (fun pc => ⟨pc.1, pc.2⟩)

/-- Model of `MarkdownProvider.load`.  `dirList` is the result of
`fs.readdirSync` (an exception there is caught by the surrounding `try` and
reported through `done`); `readF` is `fs.readFile`, whose first error aborts
the `async.map` and is reported through `done(err, null)`; an exception
thrown by `parseRawDataAsync` happens inside the deferred `async.map`
callback, outside the `try`/`catch`, so it escapes without `done` ever being
invoked.  (With an empty file list the callback would run synchronously
inside the `try`, but then `parseRawDataAsync` cannot throw.) -/
def load (pd : String → Option Int) (yamlL : String → Except ErrVal Attrs)
    (markedF : String → String) (dirList : Except ErrVal (List String))
    (readF : String → Except ErrVal String) (schema : Schema) : LoadOutcome :=
  match dirList with
  | .error e => .errCb e
  | .ok names =>
    let filepaths := loadPaths schema names
    match mapExceptList readF filepaths with
    | .error e => .errCb e
    | .ok datas =>
      match parseRawDataAsync yamlL markedF (mkRaws filepaths datas) with
      | .error e => .uncaught e
      | .ok posts => .ok (pipeline pd schema posts)

/-- Was `done` invoked at all for this outcome? -/
def callbackInvoked : LoadOutcome → Bool
  | .uncaught _ => false
  | .ok _ => true
  | .errCb _ => true

/-! ## View.render and the post-processor chain -/

/-- A JS error object as `View.render` handles it: a message and the
mutable `statusCode` property the promise `catch` handler assigns. -/
structure RenderError where
  msg : String
  statusCode : Option Nat
deriving DecidableEq

/-- The callback invocation that ends a `render`: `done(null, processed,
raw)` on success, `done(err)` / `done(err, null)` on failure — a failure
never carries any processed output. -/
inductive RenderOutcome
  | success (processed raw : String)
  | failure (e : RenderError)
deriving DecidableEq

/-- A post-processor as resolved from the configured directory: invoked as
`(this.data, raw)`; a thrown exception is the `error` case.  The page data
is modelled as an opaque string payload. -/
def PostProc := String → String → Except RenderError String

/-- The `for (let script of postProcessors)` loop: each processor is called
with the original data and the raw template output — not with the running
`processed` value, which each iteration simply overwrites — and the first
throw aborts the loop. -/
def runPostProcessors (data raw : String) :
    List PostProc → String → Except RenderError String
  | [], processed => .ok processed
  | f :: fs, _ =>
    match f data raw with
    | .error e => .error e
    | .ok v => runPostProcessors data raw fs v

/-- Model of `View.render`.  `tmpl` is the settled template promise: on
rejection the `catch` handler sets `statusCode = 500` and calls `done(err,
null)`; on success `processed` starts as `raw`, the post-processor chain
runs when it is non-empty (in the source `this.page.postProcessors` is an
array, so the `!== false` guard always holds), a throw inside the `try` is
passed to `done` verbatim, and otherwise `done(null, processed, raw)` is
called. -/
def render (tmpl : Except RenderError String) (data : String)
    (procs : List PostProc) : RenderOutcome :=
  match tmpl with
  | .error e => .failure { e with statusCode := some 500 }
  | .ok raw =>
    if procs.length > 0 then
      match runPostProcessors data raw procs raw with
      | .error e => .failure e
      | .ok processed => .success processed raw
    else .success raw raw

/-- The attribute value of the sort field read as a date: `some` exactly
when `new Date(attributes[field])` is a valid date, carrying its
timestamp. -/
def dateKey (pd : String → Option Int) (field : String) (p : Post) :
    Option Int :=
  match p.attributes.lookup field with
  | none => none
  | some v => pd v

/-- The timestamp of a date-parseable sort-field value (junk `0` when the
value does not parse; only used under a parseability hypothesis). -/
def tsOf (pd : String → Option Int) (field : String) (p : Post) : Int :=
  match dateKey pd field p with
  | some t => t
  | none => 0

/-- Chronological order between two posts on a sort field: whenever both
field values parse as dates, the first timestamp is at most the second. -/
def chronOrder (pd : String → Option Int) (field : String) (p q : Post) :
    Prop :=
  ∀ tp tq, dateKey pd field p = some tp → dateKey pd field q = some tq →
    tp ≤ tq

/-! ## Concrete instances used by witnesses and counterexamples -/

/-- A date parser that treats every value as an Invalid Date. -/
def pdNone : String → Option Int := fun _ => none

/-- A Markdown renderer that returns its input unchanged. -/
def markedId : String → String := fun s => s

/-- A YAML parser that wraps the raw front-matter block under one key. -/
def yamlWrap : String → Except ErrVal Attrs := fun s => .ok [("fm", s)]

/-- A YAML parser that accepts everything as an empty mapping. -/
def yamlOkEmpty : String → Except ErrVal Attrs := fun _ => .ok []

/-- A YAML parser that throws on every input, as js-yaml does on malformed
front matter. -/
def yamlBad : String → Except ErrVal Attrs := fun _ => .error (.yamlError "bad indent")

/-- A file system whose every file holds one well-formed document. -/
def readOneFile : String → Except ErrVal String := fun _ => .ok "---\ntitle: a\n---\nbody"

/-- A datasource schema with no query settings at all. -/
def schemaPlain : Schema := ⟨"posts", "md", none, none, none, none, none, none⟩

/-- A schema requesting pagination with `count = 2` (page defaulted). -/
def schemaCount2 : Schema := ⟨"posts", "md", none, none, none, some 2, none, none⟩

/-- A schema requesting `count = 10, page = 2`. -/
def schema25 : Schema := ⟨"posts", "md", none, none, none, some 10, none, some 2⟩

/-- The `i`-th of a family of distinct records. -/
def mkPostN (i : Nat) : Post :=
  { meta := ⟨"posts/p.md", ".md", "p"⟩
    attributes := [("n", toString i)]
    original := toString i
    contentText := ""
    contentHtml := "" }

/-- Twenty-five distinct records. -/
def posts25 : List Post := (List.range 25).map mkPostN

/-- The `totalCount` carried by an envelope's pagination metadata. -/
def envTotal (env : Envelope) : Option Nat :=
  match env.metadata with
  | some (.built m) => some m.totalCount
  | _ => none

/-- The metadata of a successful load outcome. -/
def loadMetaProj : LoadOutcome → Option (Option MetaVal)
  | .ok env => some env.metadata
  | _ => none

/-- The record that `parseRawDataAsync` builds from `posts/a.md` under
`yamlWrap` and `markedId`. -/
def postA : Post :=
  { meta := ⟨"posts/a.md", ".md", "a"⟩
    attributes := [("fm", "title: a")]
    original := "---\ntitle: a\n---\nbody"
    contentText := "body"
    contentHtml := "body" }

/-- The envelope of a one-file load under `schemaCount2`. -/
def envC8 : Envelope := pipeline pdNone schemaCount2 [postA]

/-- A date parser for two US-format dates whose lexical string order is the
reverse of their chronological order. -/
def pdDates : String → Option Int := fun s =>
  if s == "2/1/2020" then some 1580515200000
  else if s == "10/1/2020" then some 1601510400000
  else none

/-- A record carrying one date attribute. -/
def postDate (handle d : String) : Post :=
  { meta := ⟨handle, ".md", handle⟩
    attributes := [("date", d)]
    original := ""
    contentText := ""
    contentHtml := "" }

/-- Two date-attributed records, listed in lexical order of their date
strings (which is reverse chronological order). -/
def posts7 : List Post := [postDate "b" "10/1/2020", postDate "a" "2/1/2020"]

/-- A post-processor that appends a bang to the raw output. -/
def procBang : PostProc := fun _ r => .ok (r ++ "!")

/-- The error thrown by `procBoom`. -/
def errBoom : RenderError := ⟨"boom", none⟩

/-- A post-processor that always throws. -/
def procBoom : PostProc := fun _ _ => .error errBoom

/-- A post-processor whose output ignores its arguments. -/
def procInter : PostProc := fun _ _ => .ok "intermediate"

/-- A post-processor that tags the raw output it receives. -/
def procFinal : PostProc := fun _ r => .ok ("final:" ++ r)

/-! ## Lemmas about the stable insertion sort -/

theorem mem_orderedInsertLe (le : α → α → Bool) (a x : α) :
    ∀ l : List α, x ∈ orderedInsertLe le a l → x = a ∨ x ∈ l := by
  intro l
  induction l with
  | nil =>
    intro h
    simp only [orderedInsertLe, List.mem_singleton] at h
    exact Or.inl h
  | cons b t ih =>
    intro h
    simp only [orderedInsertLe] at h
    by_cases hle : le a b
    · simp only [hle, if_true] at h
      rcases List.mem_cons.mp h with h1 | h2
      · exact Or.inl h1
      · exact Or.inr h2
    · simp only [hle, if_false] at h
      rcases List.mem_cons.mp h with h1 | h2
      · exact Or.inr (List.mem_cons.mpr (Or.inl h1))
      · rcases ih h2 with h3 | h4
        · exact Or.inl h3
        · exact Or.inr (List.mem_cons.mpr (Or.inr h4))

theorem mem_insertionSortLe (le : α → α → Bool) (x : α) :
    ∀ l : List α, x ∈ insertionSortLe le l → x ∈ l := by
  intro l
  induction l with
  | nil =>
    intro h
    simp [insertionSortLe] at h
  | cons b t ih =>
    intro h
    simp only [insertionSortLe] at h
    rcases mem_orderedInsertLe le b x _ h with rfl | h'
    · exact List.mem_cons_self _ _
    · exact List.mem_cons_of_mem _ (ih h')

theorem orderedInsertLe_congr (le₁ le₂ : α → α → Bool) (a : α) :
    ∀ l : List α, (∀ y ∈ l, le₁ a y = le₂ a y) →
      orderedInsertLe le₁ a l = orderedInsertLe le₂ a l := by
  intro l
  induction l with
  | nil => intro _; rfl
  | cons b t ih =>
    intro h
    simp only [orderedInsertLe]
    rw [h b (List.mem_cons_self b t)]
    by_cases hb : le₂ a b
    · simp [hb]
    · simp only [hb, if_false]
      rw [ih (fun y hy => h y (List.mem_cons_of_mem b hy))]

theorem insertionSortLe_congr (le₁ le₂ : α → α → Bool) :
    ∀ l : List α, (∀ x ∈ l, ∀ y ∈ l, le₁ x y = le₂ x y) →
      insertionSortLe le₁ l = insertionSortLe le₂ l := by
  intro l
  induction l with
  | nil => intro _; rfl
  | cons b t ih =>
    intro h
    simp only [insertionSortLe]
    rw [ih (fun x hx y hy =>
      h x (List.mem_cons_of_mem b hx) y (List.mem_cons_of_mem b hy))]
    apply orderedInsertLe_congr
    intro y hy
    exact h b (List.mem_cons_self b t) y
      (List.mem_cons_of_mem b (mem_insertionSortLe le₂ y t hy))

theorem pairwise_orderedInsertLe_int (k : α → Int) (a : α) :
    ∀ l : List α, l.Pairwise (fun x y => k x ≤ k y) →
      (orderedInsertLe (fun x y => decide (k x ≤ k y)) a l).Pairwise
        (fun x y => k x ≤ k y) := by
  intro l
  induction l with
  | nil => intro _; simp [orderedInsertLe]
  | cons b t ih =>
    intro hl
    rw [List.pairwise_cons] at hl
    obtain ⟨hb, ht⟩ := hl
    by_cases hab : k a ≤ k b
    · simp only [orderedInsertLe, hab, decide_True, if_true]
      rw [List.pairwise_cons]
      refine ⟨?_, ?_⟩
      · intro z hz
        rcases List.mem_cons.mp hz with rfl | hz'
        · exact hab
        · exact le_trans hab (hb z hz')
      · rw [List.pairwise_cons]
        exact ⟨hb, ht⟩
    · have hba : k b ≤ k a := le_of_lt (lt_of_not_ge hab)
      have hif : orderedInsertLe (fun x y => decide (k x ≤ k y)) a (b :: t)
          = b :: orderedInsertLe (fun x y => decide (k x ≤ k y)) a t := by
        simp [orderedInsertLe, hab]
      rw [hif, List.pairwise_cons]
      refine ⟨?_, ih ht⟩
      intro z hz
      rcases mem_orderedInsertLe _ a z t hz with rfl | hz'
      · exact hba
      · exact hb z hz'

theorem pairwise_insertionSortLe_int (k : α → Int) :
    ∀ l : List α,
      (insertionSortLe (fun x y => decide (k x ≤ k y)) l).Pairwise
        (fun x y => k x ≤ k y) := by
  intro l
  induction l with
  | nil => simp [insertionSortLe]
  | cons b t ih =>
    simp only [insertionSortLe]
    exact pairwise_orderedInsertLe_int k b _ ih

/-! ## Lemmas about the comparison keys -/

theorem keyLt_num (a b : Int) : keyLt (.num a) (.num b) = decide (a < b) := by
  rcases lt_trichotomy a b with h | h | h
  · simp [keyLt, jsEq, rawLt, isUndef, h, ne_of_lt h, not_lt_of_gt h]
  · simp [keyLt, jsEq, rawLt, isUndef, h]
  · simp [keyLt, jsEq, rawLt, isUndef, h, (ne_of_lt h).symm, not_lt_of_gt h]

theorem not_decide_lt (a b : Int) : (!(decide (b < a))) = decide (a ≤ b) := by
  by_cases h : b < a
  · simp [h, not_le_of_gt h]
  · simp [h, le_of_not_gt h]

theorem sortKey_of_dateKey {pd : String → Option Int} {field : String}
    {p : Post} {t : Int} (h : dateKey pd field p = some t) :
    sortKey pd field p = .num t := by
  unfold dateKey at h
  unfold sortKey
  cases hl : p.attributes.lookup field with
  | none => simp [hl] at h
  | some v =>
    simp only [hl] at h ⊢
    simp [h]


/-! ## Lemmas about the regex and the pipeline -/

theorem execAux_eq_none : ∀ {cs : List Char}, hasTripleDash cs = false →
    execAux cs = none := by
  intro cs
  induction cs with
  | nil => intro _; rfl
  | cons c t ih =>
    intro h
    unfold hasTripleDash at h
    rw [Bool.or_eq_false_iff] at h
    obtain ⟨h1, h2⟩ := h
    unfold execAux matchAt
    rw [h1]
    simp [ih h2]

theorem yamlRegexExec_eq_none {s : String} (h : hasTripleDash s.toList = false) :
    yamlRegexExec s = none := by
  unfold yamlRegexExec
  rw [execAux_eq_none h]

theorem jsSlice_length_le (l : List α) (off c : Nat) :
    (jsSlice l off (off + c)).length ≤ c := by
  unfold jsSlice
  rw [List.length_drop, List.length_take, Nat.min_def]
  split <;> omega

theorem pipeline_results_length_le (pd : String → Option Int) (schema : Schema)
    (posts : List Post) (c : Nat) (hc : schema.count = some c) (h0 : 0 < c) :
    (pipeline pd schema posts).results.length ≤ c := by
  have hne : ¬(c = 0) := by omega
  by_cases hf : schema.fields.getD [] = []
  · simp only [pipeline, hc, hne, if_false, hf, if_true, List.length_map]
    exact jsSlice_length_le _ _ _
  · simp only [pipeline, hc, hne, if_false, hf, List.length_map]
    exact jsSlice_length_le _ _ _

theorem runPostProcessors_append_error (data raw : String) :
    ∀ (ps : List PostProc) (f : PostProc) (qs : List PostProc)
      (e : RenderError),
      (∀ g ∈ ps, ∃ v, g data raw = .ok v) → f data raw = .error e →
      ∀ acc, runPostProcessors data raw (ps ++ f :: qs) acc = .error e := by
  intro ps
  induction ps with
  | nil =>
    intro f qs e _ hf acc
    simp only [List.nil_append, runPostProcessors, hf]
  | cons g gs ih =>
    intro f qs e hall hf acc
    obtain ⟨v, hv⟩ := hall g (List.mem_cons_self g gs)
    simp only [List.cons_append, runPostProcessors, hv]
    exact ih f qs e (fun g' hg' => hall g' (List.mem_cons_of_mem g hg')) hf v

theorem runPostProcessors_last_ok (data raw : String) :
    ∀ (ps : List PostProc) (f : PostProc) (v : String),
      (∀ g ∈ ps, ∃ w, g data raw = .ok w) → f data raw = .ok v →
      ∀ acc, runPostProcessors data raw (ps ++ [f]) acc = .ok v := by
  intro ps
  induction ps with
  | nil =>
    intro f v _ hf acc
    simp only [List.nil_append, runPostProcessors, hf]
  | cons g gs ih =>
    intro f v hall hf acc
    obtain ⟨w, hw⟩ := hall g (List.mem_cons_self g gs)
    simp only [List.cons_append, runPostProcessors, hw]
    exact ih f v (fun g' hg' => hall g' (List.mem_cons_of_mem g hg')) hf w

/-! ## Claims -/

/-- Counterexample to C1: for the document `"no front matter here"`, which
contains no `---` delimiter at all, parsing does not succeed with empty
attributes and empty content — `yamlRegex.exec` returns `null` and
`bits[1]` throws a TypeError, so the batch parse fails. -/
theorem c1_counterexample :
    parseRawDataAsync yamlOkEmpty markedId
      [⟨"posts/a.md", "no front matter here"⟩] = .error nullDeref := by
  rfl

/-- C1 (amended): for every input document whose text does not contain the
front-matter boundary pattern, parsing the batch does not succeed: the regex
match is `null`, dereferencing its capture groups throws a TypeError, and
the whole parse aborts with that error (no Record is produced). -/
theorem c1_no_boundary_throws (yamlL : String → Except ErrVal Attrs)
    (markedF : String → String) (name s : String) (rest : List RawFile)
    (h : hasTripleDash s.toList = false) :
    parseRawDataAsync yamlL markedF (⟨name, s⟩ :: rest) = .error nullDeref := by
  have hx : yamlRegexExec s = none := yamlRegexExec_eq_none h
  simp only [parseRawDataAsync, mapExceptList, parseOne, hx]

/-- Witness for C1: the amended theorem applied to the concrete
boundary-free document `"hello world"`. -/
theorem c1_no_boundary_throws_witness :
    hasTripleDash ("hello world".toList) = false ∧
    parseRawDataAsync yamlOkEmpty markedId [⟨"posts/a.md", "hello world"⟩] =
      .error nullDeref :=
  ⟨by decide,
   c1_no_boundary_throws yamlOkEmpty markedId "posts/a.md" "hello world" []
     (by decide)⟩

/-- Counterexample to C2: a load over one well-formed file whose front
matter the YAML parser rejects ends with the parse exception escaping the
`async.map` callback — `done` is never invoked, although the claim says the
load never fails without invoking the callback. -/
theorem c2_counterexample :
    callbackInvoked
      (load pdNone yamlBad markedId (.ok ["a.md"]) readOneFile schemaPlain)
      = false := by
  rfl

/-- C2 (amended): directory-enumeration failures and file-read failures are
surfaced through the load callback's error channel, but an exception thrown
by `parseRawDataAsync` (e.g. malformed YAML) occurs in the `async.map`
completion callback after the `try`/`catch` has returned, so it escapes
uncaught and the callback is never invoked. -/
theorem c2_error_channels (pd : String → Option Int)
    (yamlL : String → Except ErrVal Attrs) (markedF : String → String)
    (dirList : Except ErrVal (List String))
    (readF : String → Except ErrVal String) (schema : Schema) :
    (∀ e, dirList = .error e →
      load pd yamlL markedF dirList readF schema = .errCb e) ∧
    (∀ names e, dirList = .ok names →
      mapExceptList readF (loadPaths schema names) = .error e →
      load pd yamlL markedF dirList readF schema = .errCb e) ∧
    (∀ names datas e, dirList = .ok names →
      mapExceptList readF (loadPaths schema names) = .ok datas →
      parseRawDataAsync yamlL markedF (mkRaws (loadPaths schema names) datas)
        = .error e →
      load pd yamlL markedF dirList readF schema = .uncaught e) := by
  refine ⟨?_, ?_, ?_⟩
  · intro e he
    rw [he]
    rfl
  · intro names e h1 h2
    rw [h1]
    simp only [load, h2]
  · intro names datas e h1 h2 h3
    rw [h1]
    simp only [load, h2, h3]

/-- Witness for C2: the uncaught-exception branch of the amended theorem at
a concrete one-file load whose YAML parser throws. -/
theorem c2_error_channels_witness :
    mapExceptList readOneFile (loadPaths schemaPlain ["a.md"]) =
      .ok ["---\ntitle: a\n---\nbody"] ∧
    parseRawDataAsync yamlBad markedId
      (mkRaws (loadPaths schemaPlain ["a.md"]) ["---\ntitle: a\n---\nbody"])
      = .error (.yamlError "bad indent") ∧
    load pdNone yamlBad markedId (.ok ["a.md"]) readOneFile schemaPlain =
      .uncaught (.yamlError "bad indent") :=
  ⟨by rfl, by rfl,
   (c2_error_channels pdNone yamlBad markedId (.ok ["a.md"]) readOneFile
       schemaPlain).2.2 ["a.md"] ["---\ntitle: a\n---\nbody"]
     (.yamlError "bad indent") rfl (by rfl) (by rfl)⟩

/-- C3 (code bug): on a successful load with no `count` configured the
envelope's metadata is the initial empty array `[]` — an empty array is
truthy, so the `metadata || null` fallback never yields `null`, although
both the spec and the expression's own intent say the metadata should be
`null` when pagination is not triggered. -/
theorem c3_metadata_not_null :
    loadMetaProj
      (load pdNone yamlWrap markedId (.ok ["a.md"]) readOneFile schemaPlain)
      = some (some MetaVal.arrEmpty) := by
  rfl

/-- C4 (code bug): over the directory listing `["a.md", "b.md"]` the
extension filter selects only `"a.md"`, even though `"b.md"` matches the
extension pattern from a fresh regex state — the `g`-flag regex keeps its
`lastIndex` across the `test` calls of the filter, so selection depends on
the position of the filename in the listing. -/
theorem c4_filter_stateful :
    selectFilenames "md" ["a.md", "b.md"] = ["a.md"] ∧
    matchesExtStateless "md" "b.md" = true := by
  exact ⟨by rfl, by rfl⟩

/-- C5: when pagination is triggered (a non-zero `count`), and no field
projection is configured, the results are exactly the slice
`[offset, offset + count)` of the searched-filtered-sorted sequence with
`offset = (page - 1) * count`, and the metadata is built from the length of
the post-filter sequence captured before the slice (its `totalCount` is that
pre-slice length). -/
theorem c5_pagination_slice (pd : String → Option Int) (schema : Schema)
    (posts : List Post) (c : Nat) (hc : schema.count = some c) (h0 : 0 < c)
    (hf : schema.fields.getD [] = []) :
    pipeline pd schema posts =
      { results :=
          (jsSlice
            (sortStep pd (processSortParameter schema.sort)
              (stage12 schema posts))
            ((effPage schema - 1) * c) ((effPage schema - 1) * c + c)).map
            ResultRec.full
        metadata :=
          some (.built
            (metaBuild (effPage schema) c (stage12 schema posts).length)) } ∧
    (metaBuild (effPage schema) c (stage12 schema posts).length).totalCount =
      (stage12 schema posts).length := by
  have hne : ¬(c = 0) := by omega
  refine ⟨?_, rfl⟩
  simp only [pipeline, hc, hne, if_false, hf, if_true, metaOrNull, metaTruthy]

/-- Witness for C5: twenty-five records with `count = 10, page = 2` return
exactly the records at indices `[10, 20)` and the metadata's total count is
`25`. -/
theorem c5_pagination_slice_witness :
    schema25.count = some 10 ∧ 0 < 10 ∧ schema25.fields.getD [] = [] ∧
    pipeline pdNone schema25 posts25 =
      { results :=
          (jsSlice
            (sortStep pdNone (processSortParameter schema25.sort)
              (stage12 schema25 posts25))
            ((effPage schema25 - 1) * 10) ((effPage schema25 - 1) * 10 + 10)).map
            ResultRec.full
        metadata :=
          some (.built
            (metaBuild (effPage schema25) 10
              (stage12 schema25 posts25).length)) } ∧
    (pipeline pdNone schema25 posts25).results =
      ((posts25.drop 10).take 10).map ResultRec.full ∧
    envTotal (pipeline pdNone schema25 posts25) = some 25 :=
  ⟨rfl, by decide, rfl,
   (c5_pagination_slice pdNone schema25 posts25 10 rfl (by decide) rfl).1,
   by rfl, by rfl⟩

/-- C6: for every dataset and every single sort field, sorting with
direction `-1` yields exactly the reverse of sorting the same dataset on the
same field with direction `1`. -/
theorem c6_sort_direction_reverse (pd : String → Option Int) (field : String)
    (posts : List Post) :
    sortStep pd [(field, -1)] posts = (sortStep pd [(field, 1)] posts).reverse := by
  simp [sortStep, applySortDir]

/-- C7: whenever every record's sort-field attribute value parses as a valid
calendar date, the ascending sort orders the records chronologically by
timestamp (so any two date-valued records end up in timestamp order, not in
lexical string order). -/
theorem c7_sort_chronological (pd : String → Option Int) (field : String)
    (posts : List Post)
    (h : ∀ p ∈ posts, (dateKey pd field p).isSome) :
    (sortStep pd [(field, 1)] posts).Pairwise (chronOrder pd field) := by
  have hstep : sortStep pd [(field, 1)] posts = sortByField pd field posts := by
    simp [sortStep, applySortDir]
  rw [hstep]
  have hcong : sortByField pd field posts =
      insertionSortLe
        (fun x y => decide (tsOf pd field x ≤ tsOf pd field y)) posts := by
    unfold sortByField
    apply insertionSortLe_congr
    intro x hx y hy
    obtain ⟨tx, hx'⟩ := Option.isSome_iff_exists.mp (h x hx)
    obtain ⟨ty, hy'⟩ := Option.isSome_iff_exists.mp (h y hy)
    rw [sortKey_of_dateKey hx', sortKey_of_dateKey hy', keyLt_num,
      not_decide_lt]
    have htx : tsOf pd field x = tx := by simp [tsOf, hx']
    have hty : tsOf pd field y = ty := by simp [tsOf, hy']
    rw [htx, hty]
  rw [hcong]
  refine (pairwise_insertionSortLe_int (tsOf pd field) posts).imp ?_
  intro p q hle tp tq hp' hq'
  have htp : tsOf pd field p = tp := by simp [tsOf, hp']
  have htq : tsOf pd field q = tq := by simp [tsOf, hq']
  rw [htp, htq] at hle
  exact hle

/-- Witness for C7: two records whose US-format date strings sort
chronologically even though their lexical string order is the reverse; the
ascending sort swaps them into timestamp order. -/
theorem c7_sort_chronological_witness :
    (sortStep pdDates [("date", 1)] posts7).Pairwise
      (chronOrder pdDates "date") ∧
    sortStep pdDates [("date", 1)] posts7 =
      [postDate "a" "2/1/2020", postDate "b" "10/1/2020"] :=
  ⟨c7_sort_chronological pdDates "date" posts7 (by decide), by rfl⟩

/-- C8: for every load with pagination triggered (a non-zero `count`), the
number of records in the returned results never exceeds `count`. -/
theorem c8_results_bounded (pd : String → Option Int)
    (yamlL : String → Except ErrVal Attrs) (markedF : String → String)
    (dirList : Except ErrVal (List String))
    (readF : String → Except ErrVal String) (schema : Schema) (c : Nat)
    (env : Envelope) (hc : schema.count = some c) (h0 : 0 < c)
    (hok : load pd yamlL markedF dirList readF schema = .ok env) :
    env.results.length ≤ c := by
  cases dirList with
  | error e => simp [load] at hok
  | ok names =>
    cases hm : mapExceptList readF (loadPaths schema names) with
    | error e =>
      have hload : load pd yamlL markedF (.ok names) readF schema = .errCb e := by
        simp only [load, hm]
      rw [hload] at hok
      simp at hok
    | ok datas =>
      cases hp : parseRawDataAsync yamlL markedF
          (mkRaws (loadPaths schema names) datas) with
      | error e =>
        have hload : load pd yamlL markedF (.ok names) readF schema
            = .uncaught e := by
          simp only [load, hm, hp]
        rw [hload] at hok
        simp at hok
      | ok posts =>
        have hload : load pd yamlL markedF (.ok names) readF schema
            = .ok (pipeline pd schema posts) := by
          simp only [load, hm, hp]
        rw [hload] at hok
        simp only [LoadOutcome.ok.injEq] at hok
        rw [← hok]
        exact pipeline_results_length_le pd schema posts c hc h0

/-- Witness for C8: a one-file load with `count = 2` returns one record,
within the bound. -/
theorem c8_results_bounded_witness :
    schemaCount2.count = some 2 ∧ 0 < 2 ∧
    load pdNone yamlWrap markedId (.ok ["a.md"]) readOneFile schemaCount2 =
      .ok envC8 ∧
    envC8.results.length ≤ 2 :=
  ⟨rfl, by decide, by rfl,
   c8_results_bounded pdNone yamlWrap markedId (.ok ["a.md"]) readOneFile
     schemaCount2 2 envC8 rfl (by decide) (by rfl)⟩

/-- C9: if the post-processors before some processor `f` all succeed and `f`
throws, rendering aborts — the callback receives the thrown error verbatim
(no 500 marker is attached on this path) and no processed output is
delivered. -/
theorem c9_postprocessor_error_aborts (data raw : String)
    (ps : List PostProc) (f : PostProc) (qs : List PostProc)
    (e : RenderError) (hps : ∀ g ∈ ps, ∃ v, g data raw = .ok v)
    (hf : f data raw = .error e) :
    render (.ok raw) data (ps ++ f :: qs) = .failure e := by
  simp only [render]
  rw [if_pos (by simp), runPostProcessors_append_error data raw ps f qs e hps hf raw]

/-- Witness for C9: a succeeding processor followed by a throwing one; the
render fails with exactly the thrown error. -/
theorem c9_postprocessor_error_aborts_witness :
    render (.ok "raw") "data" [procBang, procBoom] = .failure errBoom :=
  c9_postprocessor_error_aborts "data" "raw" [procBang] procBoom [] errBoom
    (by
      intro g hg
      rw [List.mem_singleton] at hg
      subst hg
      exact ⟨"raw" ++ "!", rfl⟩)
    rfl

/-- C10: every post-processor is invoked on the raw template output, not on
the previous processor's result, so when the whole chain succeeds the
processed output delivered to the callback is the last processor's result on
the raw output alone — whatever the earlier processors returned. -/
theorem c10_last_processor_output (data raw : String) (ps : List PostProc)
    (f : PostProc) (v : String) (hps : ∀ g ∈ ps, ∃ w, g data raw = .ok w)
    (hf : f data raw = .ok v) :
    render (.ok raw) data (ps ++ [f]) = .success v raw := by
  simp only [render]
  rw [if_pos (by simp), runPostProcessors_last_ok data raw ps f v hps hf raw]

/-- Witness for C10: the first processor's output `"intermediate"` is
discarded; the delivered output is the last processor's tag of the raw
output. -/
theorem c10_last_processor_output_witness :
    render (.ok "raw") "data" [procInter, procFinal] =
      .success ("final:" ++ "raw") "raw" :=
  c10_last_processor_output "data" "raw" [procInter] procFinal
    ("final:" ++ "raw")
    (by
      intro g hg
      rw [List.mem_singleton] at hg
      subst hg
      exact ⟨"intermediate", rfl⟩)
    rfl
